import Mathlib

/-!
Shallow embedding of `velox/functions/prestosql/aggregates/ApproxPercentileAggregate.cpp`.

The element type `T` of the aggregate is modelled as `Int` (the integral
instantiations); `double` arguments (percentile, accuracy) are modelled as `ℚ`,
which is adequate because the code only compares them for order and equality.
`int64_t` weights and counts are modelled as `Int`.

The KLL sketch library (`velox/functions/lib/KllSketch.h`) is not part of the
sources; its operations are modelled from the specification (see the doc
comments starting with "Modelled from the spec"), at the level of detail the
accumulator and operator logic depends on: the logical multiset of inserted
items, the total count `n`, the min and max, the backing allocator, and the
finished and compacted flags.  The randomized level compaction is elided: no
claim about the accumulator or the operator depends on it.
-/

namespace ApproxPercentile

/-- Allocator tag: the shared arena (HashStringAllocator via StlAllocator) vs
the thread-safe heap allocator (std::allocator). -/
inductive Alloc where
  | arena
  | heap
deriving DecidableEq

/-- Modelled from the spec: a zero-copy read-only snapshot of a sketch,
exposing `(k, n, min, max, items, levels)`.  `level0Sorted` records whether the
snapshotted level 0 was sorted, which is a property of the copied `items`
determined by the finished flag of the source sketch. -/
structure KllView where
  k : Nat
  n : Nat
  minValue : Int
  maxValue : Int
  items : List Int
  levels : List Int
  level0Sorted : Bool
deriving DecidableEq

instance : Inhabited KllView := ⟨⟨0, 0, 0, 0, [], [], true⟩⟩

/-- Modelled from the spec: the KLL sketch state.  `items` is the logical
multiset of inserted values (level compaction elided), `n` the total logical
count, `isFinished` the finished flag (level 0 sorted), `isCompacted` records
whether the internal buffers were shrunk to fit by `compact`. -/
structure KllSketch where
  alloc : Alloc
  k : Nat
  n : Nat
  minValue : Int
  maxValue : Int
  items : List Int
  isFinished : Bool
  isCompacted : Bool
deriving DecidableEq

/-- Modelled from the spec: `kDefaultK`, the default compaction parameter
(typical value 200). -/
def kDefaultK : Nat := 200

/-- Modelled from the spec: `new(k, seed)` returns an empty sketch
(`n = 0`, empty level 0, not finished). -/
def KllSketch.new (alloc : Alloc) (k : Nat) : KllSketch :=
  ⟨alloc, k, 0, 0, 0, [], false, false⟩

instance : Inhabited KllSketch := ⟨KllSketch.new .arena kDefaultK⟩

/-- Modelled from the spec: `insert(v)` appends `v` to level 0, updates min and
max, increments `n`, and marks the sketch not finished. -/
def KllSketch.insert (s : KllSketch) (v : Int) : KllSketch :=
  { s with
    n := s.n + 1
    minValue := if s.n = 0 then v else min s.minValue v
    maxValue := if s.n = 0 then v else max s.maxValue v
    items := v :: s.items
    isFinished := false
    isCompacted := false }

/-- `count` successive inserts of the same value, as performed by the loop in
`KllSketchAccumulator::append` for small counts. -/
def KllSketch.insertN (s : KllSketch) (v : Int) : Nat → KllSketch
  | 0 => s
  | m + 1 => (s.insertN v m).insert v

/-- Modelled from the spec: `setK` adjusts the compaction parameter. -/
def KllSketch.setK (s : KllSketch) (k : Nat) : KllSketch :=
  { s with k := k }

/-- Modelled from the spec: `finish()` sorts level 0 ascending; idempotent. -/
def KllSketch.finish (s : KllSketch) : KllSketch :=
  { s with isFinished := true }

/-- Modelled from the spec: `compact()` shrinks the internal buffers to
exactly fit the level structure (no change to the represented multiset). -/
def KllSketch.compact (s : KllSketch) : KllSketch :=
  { s with isCompacted := true }

/-- Modelled from the spec: `toView()` exposes `(k, n, min, max, items,
levels)` without copying.  Level structure is elided in this model, so the
levels sequence is the trivial one for a single level. -/
def KllSketch.toView (s : KllSketch) : KllView :=
  ⟨s.k, s.n, s.minValue, s.maxValue, s.items, [0, (s.items.length : Int)],
    s.isFinished⟩

/-- Modelled from the spec: `fromView(view, allocator, seed)` copies the view
fields into a fresh owned sketch backed by the given allocator.  The fresh
sketch is finished exactly when the copied level 0 was sorted. -/
def KllSketch.fromView (alloc : Alloc) (v : KllView) : KllSketch :=
  ⟨alloc, v.k, v.n, v.minValue, v.maxValue, v.items, v.level0Sorted, false⟩

/-- Modelled from the spec: `from_repeated_value(v, count, k, seed)` builds a
sketch representing `count` copies of `v` with `min = max = v` and `n = count`.
Its level contents are trivially sorted. -/
def KllSketch.fromRepeatedValue (alloc : Alloc) (v : Int) (count : Nat)
    (k : Nat) : KllSketch :=
  ⟨alloc, k, count, v, v, List.replicate count v, true, false⟩

/-- Absorbing one view during a merge: a view with `n = 0` leaves the target
unchanged; otherwise `k` drops to the minimum, `n`, min and max combine, and
the view items join the stored items. -/
def KllSketch.mergeStep (t : KllSketch) (v : KllView) : KllSketch :=
  if v.n = 0 then t
  else
    { t with
      k := min t.k v.k
      n := t.n + v.n
      minValue := if t.n = 0 then v.minValue else min t.minValue v.minValue
      maxValue := if t.n = 0 then v.maxValue else max t.maxValue v.maxValue
      items := t.items ++ v.items
      isCompacted := false }

/-- Modelled from the spec: `mergeViews` absorbs the levels of each view into
the sketch by sorted merge, which first sorts own level 0 (finishing the
sketch), then folds the views in. -/
def KllSketch.mergeViews (s : KllSketch) (views : List KllView) : KllSketch :=
  views.foldl KllSketch.mergeStep { s with isFinished := true }

/-- Modelled from the spec: `merge(others)` has the same semantics as merging
the views of the others. -/
def KllSketch.merge (s : KllSketch) (others : List KllSketch) : KllSketch :=
  s.mergeViews (others.map KllSketch.toView)

/-- Modelled from the spec: `kFromEpsilon` maps an accuracy to a compaction
parameter `k`.  The exact formula lives in the sketch library, which is absent
from the sources; no claim depends on its value, only on the fact that
`setAccuracy` rewrites `k` through it. -/
def kFromEpsilon (accuracy : ℚ) : Nat :=
  (Rat.ceil (1 / accuracy)).toNat

/-- `KllSketchAccumulator` (source lines 80-185): one arena-backed sketch plus
the arena-backed buffer of large-count `(value, count)` pairs. -/
structure KllSketchAccumulator where
  sketch : KllSketch
  largeCountValues : List (Int × Int)
deriving DecidableEq

instance : Inhabited KllSketchAccumulator :=
  ⟨⟨KllSketch.new .arena kDefaultK, []⟩⟩

/-- Constructor (source lines 82-89): fresh sketch with the default `k` backed
by the arena, empty buffer. -/
def KllSketchAccumulator.init : KllSketchAccumulator :=
  ⟨KllSketch.new .arena kDefaultK, []⟩

/-- `setAccuracy` (source lines 91-93). -/
def KllSketchAccumulator.setAccuracy (acc : KllSketchAccumulator) (value : ℚ) :
    KllSketchAccumulator :=
  { acc with sketch := acc.sketch.setK (kFromEpsilon value) }

/-- `append(T value)` (source lines 95-97). -/
def KllSketchAccumulator.append (acc : KllSketchAccumulator) (value : Int) :
    KllSketchAccumulator :=
  { acc with sketch := acc.sketch.insert value }

/-- `kMaxBufferSize` (source line 104). -/
def kMaxBufferSize : Nat := 4096

/-- `kMinCountToBuffer` (source line 105). -/
def kMinCountToBuffer : Int := 512

/-- `mergeLargeCountValuesIntoSketch` (source lines 166-180): if the buffer is
non-empty, build one repeated-value sketch per buffered pair, using the
accumulator sketch parameter `k` and the given allocator, and merge them all
into the target sketch. -/
def KllSketchAccumulator.mergeLargeCountValuesIntoSketch
    (acc : KllSketchAccumulator) (alloc : Alloc) (sketch : KllSketch) :
    KllSketch :=
  if acc.largeCountValues = [] then sketch
  else
    sketch.merge
      (acc.largeCountValues.map fun p =>
        KllSketch.fromRepeatedValue alloc p.1 p.2.toNat acc.sketch.k)

/-- `flush` (source lines 154-162): drain the buffer into the arena-backed
sketch, clear the buffer, finish the sketch. -/
def KllSketchAccumulator.flush (acc : KllSketchAccumulator) :
    KllSketchAccumulator :=
  { sketch :=
      (acc.mergeLargeCountValuesIntoSketch .arena acc.sketch).finish
    largeCountValues := [] }

/-- `append(T value, int64_t count, ...)` (source lines 99-116): small counts
are inserted one by one; large counts are buffered, and the buffer is flushed
when its size reaches `kMaxBufferSize`. -/
def KllSketchAccumulator.appendWeighted (acc : KllSketchAccumulator)
    (value : Int) (count : Int) : KllSketchAccumulator :=
  if count < kMinCountToBuffer then
    { acc with sketch := acc.sketch.insertN value count.toNat }
  else
    let acc2 : KllSketchAccumulator :=
      { acc with largeCountValues := acc.largeCountValues ++ [(value, count)] }
    if kMaxBufferSize ≤ acc2.largeCountValues.length then acc2.flush else acc2

/-- `append(const KllView&)` (source lines 118-120). -/
def KllSketchAccumulator.appendView (acc : KllSketchAccumulator)
    (v : KllView) : KllSketchAccumulator :=
  { acc with sketch := acc.sketch.mergeViews [v] }

/-- `append(const std::vector<KllView>&)` (source lines 122-124). -/
def KllSketchAccumulator.appendViews (acc : KllSketchAccumulator)
    (vs : List KllView) : KllSketchAccumulator :=
  { acc with sketch := acc.sketch.mergeViews vs }

/-- `KllSketchAccumulator::compact` (source lines 132-146), the spill path:
copy the sketch through a view into a heap-backed sketch, merge the buffered
large-count pairs into the copy, call `compact()` on the copy and return it.
The method is declared `const`; the model returns the (unchanged) accumulator
alongside the result to make the absence of mutation explicit. -/
def KllSketchAccumulator.compact (acc : KllSketchAccumulator) :
    KllSketchAccumulator × KllSketch :=
  let newSketch := KllSketch.fromView .heap acc.sketch.toView
  let merged := acc.mergeLargeCountValuesIntoSketch .heap newSketch
  (acc, merged.compact)

/-- `checkWeight` bound (source line 188): `(1ll << 60) - 1`. -/
def kMaxWeight : Int := 2 ^ 60 - 1

/-- `checkWeight` (source lines 187-195): user error unless
`1 ≤ weight ≤ kMaxWeight`. -/
def checkWeight (weight : Int) : Except String Unit :=
  if 1 ≤ weight ∧ weight ≤ kMaxWeight then .ok ()
  else .error "weight must be in range"

/-- Operator-scope percentile specification (source lines 684-687). -/
structure Percentiles where
  values : List ℚ
  isArray : Bool
deriving DecidableEq

/-- `kMissingNormalizedValue` (source line 689): sentinel for unset accuracy. -/
def kMissingNormalizedValue : ℚ := -1

/-- Operator-scope state of `ApproxPercentileAggregate` (source lines
689-697). -/
structure AggState where
  hasWeight : Bool
  hasAccuracy : Bool
  percentiles : Option Percentiles
  accuracy : ℚ
deriving DecidableEq

/-- `initRawAccumulator` (source lines 664-670): pushes the resolved accuracy
into the accumulator when one is set. -/
def AggState.initRawAccumulator (st : AggState) (acc : KllSketchAccumulator) :
    KllSketchAccumulator :=
  if st.accuracy ≠ kMissingNormalizedValue then acc.setAccuracy st.accuracy
  else acc

/-- Whether an `Except` result is a raised user error. -/
def isUserError {α : Type} : Except String α → Bool
  | .error _ => true
  | .ok _ => false

/-- One selected row of the weighted raw-input path (source lines 399-411):
skip if value or weight is null; otherwise resolve the accumulator, check the
weight and append. -/
def addRawRowWeighted (st : AggState) (acc : KllSketchAccumulator)
    (value : Option Int) (weight : Option Int) :
    Except String KllSketchAccumulator :=
  match value, weight with
  | some v, some w =>
    let acc2 := st.initRawAccumulator acc
    match checkWeight w with
    | .error e => .error e
    | .ok _ => .ok (acc2.appendWeighted v w)
  | _, _ => .ok acc

/-- One selected row of the unweighted raw-input path (source lines 412-428):
skip if value is null, otherwise append. -/
def addRawRowUnweighted (st : AggState) (acc : KllSketchAccumulator)
    (value : Option Int) : KllSketchAccumulator :=
  match value with
  | some v => (st.initRawAccumulator acc).append v
  | none => acc

/-- One slot of a decoded vector: a null flag plus the raw value stored in the
slot (the raw value is present even when the slot is null, as in Velox). -/
structure Slot (α : Type) where
  isNull : Bool
  val : α
deriving DecidableEq

instance {α : Type} [Inhabited α] : Inhabited (Slot α) := ⟨⟨true, default⟩⟩

/-- `DecodedVector::isNullAt`. -/
def isNullAt {α : Type} [Inhabited α] (xs : List (Slot α)) (i : Nat) : Bool :=
  (xs.getD i default).isNull

/-- `DecodedVector::valueAt`: reads the raw value, regardless of nullness. -/
def valueAt {α : Type} [Inhabited α] (xs : List (Slot α)) (i : Nat) : α :=
  (xs.getD i default).val

/-- The slots a `DecodedVector` exposes: base slots read through the index
mapping. -/
def decodeSlots {α : Type} [Inhabited α] (base : List (Slot α))
    (indices : List Nat) : List (Slot α) :=
  indices.map fun j => base.getD j default

/-- The validation loop of the percentile-resolving branch of
`checkSetPercentile` (source lines 601-607): for `i` in `[0, len)`, check
nullness of slot `i`, then read the value of slot `offset + i` and check it
lies in `[0, 1]`.  Note the differing indices, exactly as in the source. -/
def readPercentileValues (ps : List (Slot ℚ)) (offset : Nat) :
    Nat → Nat → Except String (List ℚ)
  | _, 0 => .ok []
  | i, r + 1 =>
    if isNullAt ps i then .error "Percentile cannot be null"
    else
      let value := valueAt ps (offset + i)
      if ¬ (0 ≤ value) then .error "Percentile must be between 0 and 1"
      else if ¬ (value ≤ 1) then .error "Percentile must be between 0 and 1"
      else
        match readPercentileValues ps offset (i + 1) r with
        | .error e => .error e
        | .ok rest => .ok (value :: rest)

/-- The equality loop of `checkSetPercentile` (source lines 617-622): each
value at `offset + i` must equal the previously resolved value `i`. -/
def checkPercentileValuesEq (ps : List (Slot ℚ)) (offset : Nat) :
    Nat → List ℚ → Except String Unit
  | _, [] => .ok ()
  | i, e :: rest =>
    if valueAt ps (offset + i) = e then
      checkPercentileValuesEq ps offset (i + 1) rest
    else .error "Percentile argument must be constant for all input rows"

/-- `checkSetPercentile(isArray, percentiles, offset, len)` (source lines
590-624): on first resolution, require a non-empty list and validate each
element; afterwards, require the same shape and element values. -/
def checkSetPercentile (st : AggState) (isArr : Bool) (ps : List (Slot ℚ))
    (offset len : Nat) : Except String AggState :=
  match st.percentiles with
  | none =>
    if len = 0 then .error "Percentile cannot be empty"
    else
      match readPercentileValues ps offset 0 len with
      | .error e => .error e
      | .ok values => .ok { st with percentiles := some ⟨values, isArr⟩ }
  | some p =>
    if isArr ≠ p.isArray then
      .error "Percentile argument must be constant for all input rows"
    else if len ≠ p.values.length then
      .error "Percentile argument must be constant for all input rows"
    else
      match checkPercentileValuesEq ps offset 0 p.values with
      | .error e => .error e
      | .ok _ => .ok st

/-- An array vector: per-slot null flags, offsets and sizes into a shared
elements vector. -/
structure ArrayVec (α : Type) where
  nulls : List Bool
  offsets : List Nat
  sizes : List Nat
  elements : List (Slot α)
deriving DecidableEq

/-- Element-wise content of an array slot, nulls respected (used by
`equalValueAt` on array vectors). -/
def arraySliceAt {α : Type} [Inhabited α] (a : ArrayVec α) (i : Nat) :
    List (Option α) :=
  ((a.elements.drop (a.offsets.getD i 0)).take (a.sizes.getD i 0)).map
    fun s => if s.isNull then none else some s.val

/-- `BaseVector::equalValueAt` on a flat double vector: null flags equal and,
when non-null, values equal. -/
def slotEqAt (base : List (Slot ℚ)) (i j : Nat) : Bool :=
  let a := base.getD i default
  let b := base.getD j default
  if a.isNull then b.isNull
  else if b.isNull then false
  else a.val = b.val

/-- `BaseVector::equalValueAt` on an array vector: null flags equal and, when
non-null, the element slices equal (element nulls respected). -/
def arrayEqAt (a : ArrayVec ℚ) (i j : Nat) : Bool :=
  if a.nulls.getD i true then a.nulls.getD j true
  else if a.nulls.getD j true then false
  else arraySliceAt a i = arraySliceAt a j

/-- The decoded percentile argument column: either a scalar double column or an
array-of-double column, each with its base, index mapping and constant-mapping
flag. -/
inductive PercCol where
  | doubles (base : List (Slot ℚ)) (indices : List Nat)
      (constantMapping : Bool)
  | arrays (base : ArrayVec ℚ) (indices : List Nat) (constantMapping : Bool)
deriving DecidableEq

/-- The per-row constancy loop of `checkSetPercentile(rows, vec)` (source
lines 558-567) for the scalar variant: each selected row must be non-null and
equal in value to the first selected row. -/
def checkPercRowsDoubles (base : List (Slot ℚ)) (indices : List Nat)
    (baseFirstRow : Nat) : List Nat → Except String Unit
  | [] => .ok ()
  | row :: rest =>
    if isNullAt (decodeSlots base indices) row then
      .error "Percentile cannot be null"
    else if slotEqAt base (indices.getD row 0) baseFirstRow then
      checkPercRowsDoubles base indices baseFirstRow rest
    else .error "Percentile argument must be constant for all input rows"

/-- The per-row constancy loop of `checkSetPercentile(rows, vec)` (source
lines 558-567) for the array variant. -/
def checkPercRowsArrays (base : ArrayVec ℚ) (indices : List Nat)
    (baseFirstRow : Nat) : List Nat → Except String Unit
  | [] => .ok ()
  | row :: rest =>
    if base.nulls.getD (indices.getD row 0) true then
      .error "Percentile cannot be null"
    else if arrayEqAt base (indices.getD row 0) baseFirstRow then
      checkPercRowsArrays base indices baseFirstRow rest
    else .error "Percentile argument must be constant for all input rows"

/-- `checkSetPercentile(rows, vec)` (source lines 551-588): decode the
percentile column over the selected rows, enforce per-row constancy when the
mapping is not constant, then dispatch on the column type.  For the scalar
variant the inner call receives the decoded vector with `offset = rows.begin()`
and `len = 1`; for the array variant it receives the array elements with the
offset and size of the first selected row base slot. -/
def checkSetPercentileRows (st : AggState) (rows : List Nat) (col : PercCol) :
    Except String AggState :=
  let firstRow := rows.headD 0
  match col with
  | .doubles base indices cm =>
    let baseFirstRow := indices.getD firstRow 0
    let step1 : Except String Unit :=
      if cm then .ok ()
      else checkPercRowsDoubles base indices baseFirstRow rows
    match step1 with
    | .error e => .error e
    | .ok _ =>
      checkSetPercentile st false (decodeSlots base indices) firstRow 1
  | .arrays base indices cm =>
    let baseFirstRow := indices.getD firstRow 0
    let step1 : Except String Unit :=
      if cm then .ok ()
      else checkPercRowsArrays base indices baseFirstRow rows
    match step1 with
    | .error e => .error e
    | .ok _ =>
      checkSetPercentile st true base.elements
        (base.offsets.getD baseFirstRow 0) (base.sizes.getD baseFirstRow 0)

/-- `checkSetAccuracy(double)` (source lines 651-662): the accuracy must lie
in `(0, 1]`; the first accepted value is bound, any later value must equal
it. -/
def checkSetAccuracyValue (st : AggState) (accuracy : ℚ) :
    Except String AggState :=
  if ¬ (0 < accuracy ∧ accuracy ≤ 1) then
    .error "Accuracy must be between 0 and 1"
  else if st.accuracy = kMissingNormalizedValue then
    .ok { st with accuracy := accuracy }
  else if accuracy = st.accuracy then .ok st
  else .error "Accuracy argument must be constant for all input rows"

/-- The per-row loop of `checkSetAccuracy(rows)` (source lines 636-647) for a
non-constant mapping: each selected value must be non-null; the first one
resolves the accuracy when unset; every one must equal the resolved value. -/
def checkSetAccuracyLoop (st : AggState) (dec : List (Slot ℚ)) :
    List Nat → Except String AggState
  | [] => .ok st
  | row :: rest =>
    if isNullAt dec row then .error "Accuracy cannot be null"
    else
      let inner : Except String AggState :=
        if st.accuracy = kMissingNormalizedValue then
          checkSetAccuracyValue st (valueAt dec row)
        else .ok st
      match inner with
      | .error e => .error e
      | .ok st2 =>
        if valueAt dec row = st2.accuracy then
          checkSetAccuracyLoop st2 dec rest
        else .error "Accuracy argument must be constant for all input rows"

/-- `checkSetAccuracy(rows)` (source lines 626-649): nothing to do without the
accuracy argument; a constant-mapped column is checked once at index 0;
otherwise every selected row is checked. -/
def checkSetAccuracyRows (st : AggState) (rows : List Nat)
    (base : List (Slot ℚ)) (indices : List Nat) (cm : Bool) :
    Except String AggState :=
  if ¬ st.hasAccuracy then .ok st
  else
    let dec := decodeSlots base indices
    if cm then
      if isNullAt dec 0 then .error "Accuracy cannot be null"
      else checkSetAccuracyValue st (valueAt dec 0)
    else checkSetAccuracyLoop st dec rows

/-- One output entry of the final extraction: null, or an estimate computed
from the recorded sketch (the estimate itself is irrelevant to the claims; the
entry records which sketch `estimateQuantile` or `estimateQuantiles` was
invoked on). -/
inductive OutEntry where
  | null
  | estimate (sk : KllSketch)
deriving DecidableEq

/-- The result column of `extractValues`: a null constant of the given length,
or per-group entries. -/
inductive ExtractOut where
  | nullConstant (n : Nat)
  | entries (l : List OutEntry)
deriving DecidableEq

/-- The shared body of the two branches of `extractValues`, i.e. `extract`
(source lines 506-533): a group whose sketch has total count 0 is set null,
otherwise the extract function is invoked on the sketch of the group. -/
def extractRow (acc : KllSketchAccumulator) : OutEntry :=
  if acc.sketch.n = 0 then .null else .estimate acc.sketch

/-- `extractValues` (source lines 218-275): flush every accumulator, then
either emit a null constant column (percentiles never resolved) or one entry
per group.  Returns the updated accumulators together with the output. -/
def extractValues (st : AggState) (groups : List KllSketchAccumulator) :
    List KllSketchAccumulator × ExtractOut :=
  let flushed := groups.map KllSketchAccumulator.flush
  match st.percentiles with
  | none => (flushed, .nullConstant groups.length)
  | some _ => (flushed, .entries (flushed.map extractRow))

/-- The sketches on which `estimateQuantile` or `estimateQuantiles` is invoked
by an extraction output. -/
def estimatedSketches : ExtractOut → List KllSketch
  | .nullConstant _ => []
  | .entries l =>
    l.filterMap fun e =>
      match e with
      | .estimate sk => some sk
      | .null => none

/-- A constant-encoded child vector of the intermediate row result: length,
null flag and shared value. -/
structure ConstChild (α : Type) where
  length : Nat
  isNull : Bool
  value : α
deriving DecidableEq

/-- One row of the intermediate output of `extractAccumulators`: a null row,
or the serialized sketch view fields together with the offset and size of the
items and levels slices in the shared elements vectors. -/
inductive RowSlot where
  | null
  | slot (k : Nat) (n : Nat) (minValue maxValue : Int)
      (itemsOffset itemsSize levelsOffset levelsSize : Nat)
deriving DecidableEq

/-- The intermediate row vector produced by `extractAccumulators`. -/
structure IntermediateOut where
  percentilesChild : ConstChild (List ℚ)
  percentilesIsArrayChild : ConstChild Bool
  accuracyChild : ConstChild ℚ
  rows : List RowSlot
  itemsElements : List Int
  levelsElements : List Int
deriving DecidableEq

/-- The serialization loop of `extractAccumulators` (source lines 370-389):
walk the views keeping running element counts; a view with `n = 0` produces a
null row and advances nothing; otherwise the row records the view fields and
the current offsets, and the counts advance by the items and levels sizes. -/
def layout : List KllView → Nat → Nat → List RowSlot
  | [], _, _ => []
  | v :: rest, itemsCount, levelsCount =>
    if v.n = 0 then .null :: layout rest itemsCount levelsCount
    else
      .slot v.k v.n v.minValue v.maxValue itemsCount v.items.length
          levelsCount v.levels.length ::
        layout rest (itemsCount + v.items.length)
          (levelsCount + v.levels.length)

/-- The items written to the shared elements vector by the loop of source
lines 370-389: the concatenation of the items of the views with `n ≠ 0`. -/
def layoutItems (views : List KllView) : List Int :=
  ((views.filter fun v => v.n ≠ 0).map KllView.items).flatten

/-- The levels written to the shared elements vector by the same loop. -/
def layoutLevels (views : List KllView) : List Int :=
  ((views.filter fun v => v.n ≠ 0).map KllView.levels).flatten

/-- The compacted spill views of the groups, as built at source lines
279-284 and 357-361: `compact` each accumulator and take the view. -/
def spillViews (groups : List KllSketchAccumulator) : List KllView :=
  groups.map fun g => (KllSketchAccumulator.compact g).2.toView

/-- `extractAccumulators` (source lines 277-390): compact every group into a
heap-backed sketch; when the percentiles were never resolved emit three null
constant children and all-null rows; otherwise emit the operator-scope
percentiles, isArray flag and accuracy as constants (the accuracy constant is
null exactly when the accuracy is unset) and serialize each view. -/
def extractAccumulators (st : AggState) (groups : List KllSketchAccumulator) :
    IntermediateOut :=
  let views := spillViews groups
  let numGroups := groups.length
  match st.percentiles with
  | none =>
    { percentilesChild := ⟨numGroups, true, []⟩
      percentilesIsArrayChild := ⟨numGroups, true, false⟩
      accuracyChild := ⟨numGroups, true, 0⟩
      rows := List.replicate numGroups .null
      itemsElements := []
      levelsElements := [] }
  | some p =>
    { percentilesChild := ⟨numGroups, false, p.values⟩
      percentilesIsArrayChild := ⟨numGroups, false, p.isArray⟩
      accuracyChild :=
        ⟨numGroups, st.accuracy = kMissingNormalizedValue, st.accuracy⟩
      rows := layout views 0 0
      itemsElements := layoutItems views
      levelsElements := layoutLevels views }

/-- Sum of the items sizes of the non-null (`n ≠ 0`) views among the first `i`
views: the expected items offset of row `i` in the shared elements vector. -/
def itemsPrefix (views : List KllView) (i : Nat) : Nat :=
  (((views.take i).filter fun v => v.n ≠ 0).map fun v => v.items.length).sum

/-- Sum of the levels sizes of the non-null views among the first `i` views. -/
def levelsPrefix (views : List KllView) (i : Nat) : Nat :=
  (((views.take i).filter fun v => v.n ≠ 0).map fun v => v.levels.length).sum

section HelperLemmas

/-- `mergeStep` never changes the allocator or the finished flag. -/
theorem mergeStep_alloc_isFinished (t : KllSketch) (v : KllView) :
    (t.mergeStep v).alloc = t.alloc ∧
      (t.mergeStep v).isFinished = t.isFinished := by
  unfold KllSketch.mergeStep
  by_cases h : v.n = 0 <;> simp [h]

/-- Folding `mergeStep` over views that all have positive count adds the view
counts to `n`, appends the view items, and preserves allocator and finished
flag. -/
theorem foldl_mergeStep_spec (vs : List KllView) (t : KllSketch)
    (h : ∀ v ∈ vs, v.n ≠ 0) :
    (vs.foldl KllSketch.mergeStep t).n = t.n + (vs.map KllView.n).sum ∧
    (vs.foldl KllSketch.mergeStep t).items =
      t.items ++ (vs.map KllView.items).flatten ∧
    (vs.foldl KllSketch.mergeStep t).alloc = t.alloc ∧
    (vs.foldl KllSketch.mergeStep t).isFinished = t.isFinished := by
  induction vs generalizing t with
  | nil => simp
  | cons v rest ih =>
    have hv : v.n ≠ 0 := h v (List.mem_cons_self v rest)
    have hrest : ∀ w ∈ rest, w.n ≠ 0 := fun w hw => h w (List.mem_cons_of_mem v hw)
    have hstep : t.mergeStep v =
        { t with
          k := min t.k v.k
          n := t.n + v.n
          minValue := if t.n = 0 then v.minValue else min t.minValue v.minValue
          maxValue := if t.n = 0 then v.maxValue else max t.maxValue v.maxValue
          items := t.items ++ v.items
          isCompacted := false } := by
      unfold KllSketch.mergeStep
      simp [hv]
    obtain ⟨hn, hitems, halloc, hfin⟩ := ih (t.mergeStep v) hrest
    refine ⟨?_, ?_, ?_, ?_⟩
    · simp only [List.foldl_cons] at *
      rw [hn, hstep]
      simp [Nat.add_assoc]
    · simp only [List.foldl_cons] at *
      rw [hitems, hstep]
      simp
    · simp only [List.foldl_cons] at *
      rw [halloc, hstep]
    · simp only [List.foldl_cons] at *
      rw [hfin, hstep]

/-- `mergeViews` over positive-count views: counts add, items append, the
result is finished, the allocator is kept. -/
theorem mergeViews_spec (s : KllSketch) (vs : List KllView)
    (h : ∀ v ∈ vs, v.n ≠ 0) :
    (s.mergeViews vs).n = s.n + (vs.map KllView.n).sum ∧
    (s.mergeViews vs).items = s.items ++ (vs.map KllView.items).flatten ∧
    (s.mergeViews vs).alloc = s.alloc ∧
    (s.mergeViews vs).isFinished = true := by
  unfold KllSketch.mergeViews
  obtain ⟨hn, hitems, halloc, hfin⟩ :=
    foldl_mergeStep_spec vs { s with isFinished := true } h
  exact ⟨hn, hitems, halloc, hfin⟩

/-- `insertN` adds `m` to the count and prepends `m` copies of the value. -/
theorem insertN_spec (s : KllSketch) (v : Int) (m : Nat) :
    (s.insertN v m).n = s.n + m ∧
    (s.insertN v m).items = List.replicate m v ++ s.items ∧
    (s.insertN v m).alloc = s.alloc := by
  induction m with
  | zero => simp [KllSketch.insertN]
  | succ m ih =>
    obtain ⟨hn, hitems, halloc⟩ := ih
    refine ⟨?_, ?_, ?_⟩
    · simp [KllSketch.insertN, KllSketch.insert, hn, Nat.add_assoc]
    · simp [KllSketch.insertN, KllSketch.insert, hitems,
        List.replicate_succ]
    · simp [KllSketch.insertN, KllSketch.insert, halloc]

end HelperLemmas

/-- Claim C2: on the weighted raw-input path, for every selected row whose
value and weight are both non-null, a user error is raised if and only if the
weight lies outside `[1, 2^60 - 1]`; in particular weight 0 and weight `2^60`
raise the error and in-range weights raise none. -/
theorem weighted_raw_input_weight_error_iff :
    (∀ (st : AggState) (acc : KllSketchAccumulator) (v w : Int),
      isUserError (addRawRowWeighted st acc (some v) (some w)) = true ↔
        (w < 1 ∨ 2 ^ 60 - 1 < w)) ∧
    (∀ (st : AggState) (acc : KllSketchAccumulator) (v : Int),
      isUserError (addRawRowWeighted st acc (some v) (some 0)) = true) ∧
    (∀ (st : AggState) (acc : KllSketchAccumulator) (v : Int),
      isUserError (addRawRowWeighted st acc (some v) (some (2 ^ 60))) =
        true) := by
  have key : ∀ (st : AggState) (acc : KllSketchAccumulator) (v w : Int),
      isUserError (addRawRowWeighted st acc (some v) (some w)) = true ↔
        (w < 1 ∨ 2 ^ 60 - 1 < w) := by
    intro st acc v w
    simp only [addRawRowWeighted, checkWeight, kMaxWeight]
    by_cases h : 1 ≤ w ∧ w ≤ 2 ^ 60 - 1
    · rw [if_pos h]
      simp only [isUserError]
      constructor
      · intro hfalse
        exact absurd hfalse (by simp)
      · intro hout
        omega
    · rw [if_neg h]
      simp only [isUserError, true_iff]
      omega
  refine ⟨key, ?_, ?_⟩
  · intro st acc v
    rw [key]
    omega
  · intro st acc v
    rw [key]
    omega

/-- Claim C8: on the raw-input path, a selected row whose value is null, or
(when weighted) whose weight is null, is skipped: the accumulator is returned
unchanged and no error is raised, even when the non-null weight would be out
of range. -/
theorem raw_input_null_rows_skipped (st : AggState)
    (acc : KllSketchAccumulator) (value weight : Option Int)
    (h : value = none ∨ weight = none) :
    addRawRowWeighted st acc value weight = .ok acc ∧
    addRawRowUnweighted st acc none = acc := by
  constructor
  · rcases h with h | h
    · subst h
      cases weight <;> rfl
    · subst h
      cases value <;> rfl
  · rfl

/-- Witness for C8: a null value together with an out-of-range weight is
silently skipped. -/
theorem raw_input_null_rows_skipped_witness :
    ((none : Option Int) = none ∨ (some (0 : Int) : Option Int) = none) ∧
    (addRawRowWeighted ⟨true, false, none, kMissingNormalizedValue⟩
        KllSketchAccumulator.init none (some 0) =
      .ok KllSketchAccumulator.init ∧
    addRawRowUnweighted ⟨true, false, none, kMissingNormalizedValue⟩
        KllSketchAccumulator.init none = KllSketchAccumulator.init) :=
  ⟨Or.inl rfl,
    raw_input_null_rows_skipped ⟨true, false, none, kMissingNormalizedValue⟩
      KllSketchAccumulator.init none (some 0) (Or.inl rfl)⟩

/-- Claim C6: `append(value, count)` inserts the value `count` times when
`count < 512` leaving the buffer alone; buffers the pair when `count ≥ 512`
leaving the sketch alone; and flushes (drains into the sketch and clears)
when the buffer size thereby reaches 4096. -/
theorem append_weighted_buffering (acc : KllSketchAccumulator) (v c : Int)
    (hc : 1 ≤ c) (hbuf : ∀ p ∈ acc.largeCountValues, 1 ≤ p.2) :
    (c < 512 →
      (acc.appendWeighted v c).largeCountValues = acc.largeCountValues ∧
      (acc.appendWeighted v c).sketch.n = acc.sketch.n + c.toNat ∧
      (acc.appendWeighted v c).sketch.items =
        List.replicate c.toNat v ++ acc.sketch.items) ∧
    (512 ≤ c → acc.largeCountValues.length + 1 < 4096 →
      (acc.appendWeighted v c).sketch = acc.sketch ∧
      (acc.appendWeighted v c).largeCountValues =
        acc.largeCountValues ++ [(v, c)]) ∧
    (512 ≤ c → acc.largeCountValues.length + 1 = 4096 →
      (acc.appendWeighted v c).largeCountValues = [] ∧
      (acc.appendWeighted v c).sketch.isFinished = true ∧
      (acc.appendWeighted v c).sketch.n =
        acc.sketch.n +
          (((acc.largeCountValues ++ [(v, c)]).map fun p => p.2.toNat).sum) ∧
      (acc.appendWeighted v c).sketch.items =
        acc.sketch.items ++
          (((acc.largeCountValues ++ [(v, c)]).map fun p =>
            List.replicate p.2.toNat p.1).flatten)) := by
  refine ⟨?_, ?_, ?_⟩
  · intro hsmall
    have hlt : c < kMinCountToBuffer := by
      simp only [kMinCountToBuffer]
      omega
    obtain ⟨hn, hitems, _⟩ := insertN_spec acc.sketch v c.toNat
    simp only [KllSketchAccumulator.appendWeighted, if_pos hlt]
    exact ⟨by trivial, hn, hitems⟩
  · intro hbig hsize
    have hge : ¬ c < kMinCountToBuffer := by
      simp only [kMinCountToBuffer]
      omega
    have hlen : ¬ kMaxBufferSize ≤
        (acc.largeCountValues ++ [(v, c)]).length := by
      simp only [kMaxBufferSize, List.length_append, List.length_singleton]
      omega
    simp only [KllSketchAccumulator.appendWeighted, if_neg hge, if_neg hlen]
    exact ⟨by trivial, by trivial⟩
  · intro hbig hsize
    have hge : ¬ c < kMinCountToBuffer := by
      simp only [kMinCountToBuffer]
      omega
    have hlen : kMaxBufferSize ≤ (acc.largeCountValues ++ [(v, c)]).length := by
      simp only [kMaxBufferSize, List.length_append, List.length_singleton]
      omega
    simp only [KllSketchAccumulator.appendWeighted, if_neg hge, if_pos hlen]
    set buf := acc.largeCountValues ++ [(v, c)] with hbufdef
    have hbufne : buf ≠ [] := by
      simp [hbufdef]
    have hall : ∀ p ∈ buf, 1 ≤ p.2 := by
      intro p hp
      rcases List.mem_append.mp hp with hp | hp
      · exact hbuf p hp
      · rcases List.mem_singleton.mp hp with rfl
        exact hc
    have hviews : ∀ w ∈ (buf.map fun p =>
        KllSketch.fromRepeatedValue .arena p.1 p.2.toNat acc.sketch.k).map
          KllSketch.toView, w.n ≠ 0 := by
      intro w hw
      simp only [List.map_map, List.mem_map, Function.comp] at hw
      obtain ⟨p, hp, rfl⟩ := hw
      have := hall p hp
      simp only [KllSketch.fromRepeatedValue, KllSketch.toView]
      omega
    simp only [KllSketchAccumulator.flush,
      KllSketchAccumulator.mergeLargeCountValuesIntoSketch, if_neg hbufne,
      KllSketch.merge]
    obtain ⟨hn, hitems, _, _⟩ := mergeViews_spec acc.sketch
      ((buf.map fun p =>
        KllSketch.fromRepeatedValue .arena p.1 p.2.toNat acc.sketch.k).map
          KllSketch.toView) hviews
    refine ⟨by trivial, by trivial, ?_, ?_⟩
    · simp only [KllSketch.finish]
      rw [hn]
      simp only [List.map_map]
      rfl
    · simp only [KllSketch.finish]
      rw [hitems]
      simp only [List.map_map]
      rfl

/-- Witness for C6: a count of 3 on a fresh accumulator takes the small-count
branch; the buffer stays empty and the sketch count grows by 3. -/
theorem append_weighted_buffering_witness :
    (1 ≤ (3 : Int)) ∧
    (∀ p ∈ KllSketchAccumulator.init.largeCountValues, 1 ≤ p.2) ∧
    ((KllSketchAccumulator.init.appendWeighted 7 3).largeCountValues =
        KllSketchAccumulator.init.largeCountValues ∧
      (KllSketchAccumulator.init.appendWeighted 7 3).sketch.n =
        KllSketchAccumulator.init.sketch.n + (3 : Int).toNat ∧
      (KllSketchAccumulator.init.appendWeighted 7 3).sketch.items =
        List.replicate (3 : Int).toNat 7 ++
          KllSketchAccumulator.init.sketch.items) :=
  ⟨by decide, by simp [KllSketchAccumulator.init],
    (append_weighted_buffering KllSketchAccumulator.init 7 3 (by decide)
      (by simp [KllSketchAccumulator.init])).1 (by decide)⟩

/-- A fresh accumulator holding one plain insert: its sketch is not finished
and its large-count buffer is empty. -/
def oneInsertAcc : KllSketchAccumulator := KllSketchAccumulator.init.append 7

/-- Counterexample to claim C1 as stated: on an accumulator whose buffer is
empty and whose sketch is mid-ingest (not finished), the sketch returned by
`KllSketchAccumulator::compact` is not finished — the method copies, merges
and compacts but never finishes (finishing happens only in `flush`). -/
theorem compact_for_spill_not_finished_counterexample :
    ¬ ((KllSketchAccumulator.compact oneInsertAcc).2.isFinished = true) := by
  decide

/-- Claim C1 (amended): for every accumulator state, `compact` leaves the
accumulator unchanged and returns a sketch built with the heap allocator into
which the sketch snapshot and all buffered (value, count) pairs have been
merged and compacted; the result is finished when the buffer is non-empty
(the merge finishes the copy), but when the buffer is empty the copy retains
the snapshot finished flag and no finish is performed. -/
theorem compact_for_spill_spec (acc : KllSketchAccumulator)
    (hbuf : ∀ p ∈ acc.largeCountValues, 1 ≤ p.2) :
    (KllSketchAccumulator.compact acc).1 = acc ∧
    (KllSketchAccumulator.compact acc).2.alloc = .heap ∧
    (KllSketchAccumulator.compact acc).2.isCompacted = true ∧
    (KllSketchAccumulator.compact acc).2.n =
      acc.sketch.n +
        ((acc.largeCountValues.map fun p => p.2.toNat).sum) ∧
    (KllSketchAccumulator.compact acc).2.items =
      acc.sketch.items ++
        ((acc.largeCountValues.map fun p =>
          List.replicate p.2.toNat p.1).flatten) ∧
    (acc.largeCountValues ≠ [] →
      (KllSketchAccumulator.compact acc).2.isFinished = true) ∧
    (acc.largeCountValues = [] →
      (KllSketchAccumulator.compact acc).2.isFinished =
        acc.sketch.isFinished) := by
  by_cases hb : acc.largeCountValues = []
  · simp only [KllSketchAccumulator.compact,
      KllSketchAccumulator.mergeLargeCountValuesIntoSketch, if_pos hb, hb]
    refine ⟨by trivial, by trivial, by trivial, by simp [KllSketch.compact,
      KllSketch.fromView, KllSketch.toView], by simp [KllSketch.compact,
      KllSketch.fromView, KllSketch.toView], ?_, ?_⟩
    · intro hcontra
      exact absurd rfl hcontra
    · intro _
      rfl
  · have hviews : ∀ w ∈ (acc.largeCountValues.map fun p =>
        KllSketch.fromRepeatedValue .heap p.1 p.2.toNat acc.sketch.k).map
          KllSketch.toView, w.n ≠ 0 := by
      intro w hw
      simp only [List.map_map, List.mem_map, Function.comp] at hw
      obtain ⟨p, hp, rfl⟩ := hw
      have := hbuf p hp
      simp only [KllSketch.fromRepeatedValue, KllSketch.toView]
      omega
    simp only [KllSketchAccumulator.compact,
      KllSketchAccumulator.mergeLargeCountValuesIntoSketch, if_neg hb,
      KllSketch.merge]
    obtain ⟨hn, hitems, halloc, hfin⟩ :=
      mergeViews_spec (KllSketch.fromView .heap acc.sketch.toView)
        ((acc.largeCountValues.map fun p =>
          KllSketch.fromRepeatedValue .heap p.1 p.2.toNat acc.sketch.k).map
            KllSketch.toView) hviews
    refine ⟨by trivial, ?_, by trivial, ?_, ?_, fun _ => ?_, fun hcontra => ?_⟩
    · simpa [KllSketch.compact, KllSketch.fromView] using halloc
    · simp only [KllSketch.compact]
      rw [hn]
      simp only [List.map_map]
      rfl
    · simp only [KllSketch.compact]
      rw [hitems]
      simp only [List.map_map]
      rfl
    · simpa [KllSketch.compact] using hfin
    · exact absurd hcontra hb

/-- Witness for the amended C1: an accumulator holding one buffered pair
(5, 2); the compacted spill copy is heap-backed, unchanged at the source, and
carries the two merged copies of 5. -/
theorem compact_for_spill_spec_witness :
    (∀ p ∈ (⟨KllSketch.new .arena kDefaultK, [((5 : Int), (2 : Int))]⟩ :
        KllSketchAccumulator).largeCountValues, 1 ≤ p.2) ∧
    ((KllSketchAccumulator.compact
        ⟨KllSketch.new .arena kDefaultK, [(5, 2)]⟩).1 =
      ⟨KllSketch.new .arena kDefaultK, [(5, 2)]⟩ ∧
    (KllSketchAccumulator.compact
        ⟨KllSketch.new .arena kDefaultK, [(5, 2)]⟩).2.alloc = .heap ∧
    (KllSketchAccumulator.compact
        ⟨KllSketch.new .arena kDefaultK, [(5, 2)]⟩).2.isFinished = true) :=
  ⟨by decide,
    (compact_for_spill_spec ⟨KllSketch.new .arena kDefaultK, [(5, 2)]⟩
        (by decide)).1,
    (compact_for_spill_spec ⟨KllSketch.new .arena kDefaultK, [(5, 2)]⟩
        (by decide)).2.1,
    (compact_for_spill_spec ⟨KllSketch.new .arena kDefaultK, [(5, 2)]⟩
        (by decide)).2.2.2.2.2.1 (by decide)⟩

/-- Reading a mapped list at an in-range position applies the function to the
source element, whatever the defaults. -/
theorem getD_map_of_lt {α β : Type} (f : α → β) (l : List α) (i : Nat)
    (h : i < l.length) (d : α) (e : β) :
    (l.map f).getD i e = f (l.getD i d) := by
  rw [List.getD_eq_getElem _ _ (by simpa using h), List.getElem_map,
    List.getD_eq_getElem _ _ h]

/-- Flushing always finishes the sketch. -/
theorem flush_isFinished (a : KllSketchAccumulator) :
    a.flush.sketch.isFinished = true := rfl

/-- Claim C9: `extractValues` flushes every accumulator of the batch before
any quantile is estimated, so every sketch an estimate is invoked on is
finished — including for groups whose output entry is then null. -/
theorem extract_values_estimates_on_finished_sketches (st : AggState)
    (groups : List KllSketchAccumulator) :
    (∀ g ∈ (extractValues st groups).1, g.sketch.isFinished = true) ∧
    (∀ sk ∈ estimatedSketches (extractValues st groups).2,
      sk.isFinished = true) := by
  have h1 : (extractValues st groups).1 =
      groups.map KllSketchAccumulator.flush := by
    unfold extractValues
    cases st.percentiles <;> rfl
  constructor
  · intro g hg
    rw [h1] at hg
    obtain ⟨a, _, rfl⟩ := List.mem_map.mp hg
    exact flush_isFinished a
  · intro sk hsk
    cases hp : st.percentiles with
    | none =>
      simp [extractValues, hp, estimatedSketches] at hsk
    | some p =>
      simp only [extractValues, hp, estimatedSketches,
        List.mem_filterMap] at hsk
      obtain ⟨e, he, hmatch⟩ := hsk
      obtain ⟨a, ha, rfl⟩ := List.mem_map.mp he
      obtain ⟨b, _, rfl⟩ := List.mem_map.mp ha
      unfold extractRow at hmatch
      by_cases hz : b.flush.sketch.n = 0
      · rw [if_pos hz] at hmatch
        exact absurd hmatch (by simp)
      · rw [if_neg hz] at hmatch
        have hsk2 : b.flush.sketch = sk := by
          simpa using hmatch
        rw [← hsk2]
        exact flush_isFinished b

/-- Witness for C9: one group with one inserted value; the single estimated
sketch is finished. -/
theorem extract_values_estimates_on_finished_sketches_witness :
    ((KllSketchAccumulator.init.append 3).flush ∈
      (extractValues ⟨false, false, some ⟨[(1 : ℚ)/2], false⟩,
          kMissingNormalizedValue⟩ [KllSketchAccumulator.init.append 3]).1 ∧
    (KllSketchAccumulator.init.append 3).flush.sketch ∈
      estimatedSketches (extractValues ⟨false, false,
          some ⟨[(1 : ℚ)/2], false⟩, kMissingNormalizedValue⟩
        [KllSketchAccumulator.init.append 3]).2) ∧
    ((KllSketchAccumulator.init.append 3).flush.sketch.isFinished = true ∧
    (KllSketchAccumulator.init.append 3).flush.sketch.isFinished = true) :=
  ⟨⟨by decide, by decide⟩,
    (extract_values_estimates_on_finished_sketches
        ⟨false, false, some ⟨[(1 : ℚ)/2], false⟩, kMissingNormalizedValue⟩
        [KllSketchAccumulator.init.append 3]).1
      (KllSketchAccumulator.init.append 3).flush (by decide),
    (extract_values_estimates_on_finished_sketches
        ⟨false, false, some ⟨[(1 : ℚ)/2], false⟩, kMissingNormalizedValue⟩
        [KllSketchAccumulator.init.append 3]).2
      (KllSketchAccumulator.init.append 3).flush.sketch (by decide)⟩

/-- Claim C4: in `extractValues`, when the percentiles were never resolved the
whole result is a null constant column; otherwise each group produces one
entry which is null exactly when the flushed sketch has total count 0, and a
non-null estimate when the count is positive. -/
theorem extract_values_null_pattern (st : AggState)
    (groups : List KllSketchAccumulator) :
    (st.percentiles = none →
      (extractValues st groups).2 = .nullConstant groups.length) ∧
    (∀ p, st.percentiles = some p →
      ∃ l, (extractValues st groups).2 = .entries l ∧
        l.length = groups.length ∧
        ∀ i, i < groups.length →
          ((groups.getD i default).flush.sketch.n = 0 →
            l.getD i .null = .null) ∧
          ((groups.getD i default).flush.sketch.n ≠ 0 →
            l.getD i .null =
              .estimate (groups.getD i default).flush.sketch)) := by
  constructor
  · intro hp
    simp [extractValues, hp]
  · intro p hp
    refine ⟨(groups.map KllSketchAccumulator.flush).map extractRow, ?_,
      by simp, ?_⟩
    · simp [extractValues, hp]
    · intro i hi
      have hget : ((groups.map KllSketchAccumulator.flush).map
          extractRow).getD i .null =
          extractRow ((groups.getD i default).flush) := by
        rw [getD_map_of_lt extractRow _ i (by simpa using hi)
          ((default : KllSketchAccumulator).flush)]
        rw [getD_map_of_lt KllSketchAccumulator.flush _ i hi default]
      rw [hget]
      constructor
      · intro hz
        unfold extractRow
        rw [if_pos hz]
      · intro hz
        unfold extractRow
        rw [if_neg hz]

/-- Witness for C4: one empty group (null entry) and one group with a value
(estimate entry), with resolved percentiles; plus the null-constant case. -/
theorem extract_values_null_pattern_witness :
    ((⟨false, false, none, kMissingNormalizedValue⟩ :
        AggState).percentiles = none ∧
      (extractValues ⟨false, false, none, kMissingNormalizedValue⟩
          [KllSketchAccumulator.init]).2 = .nullConstant 1) ∧
    (∃ l, (extractValues ⟨false, false, some ⟨[(1 : ℚ)/2], false⟩,
          kMissingNormalizedValue⟩
        [KllSketchAccumulator.init, KllSketchAccumulator.init.append 3]).2 =
          .entries l ∧
      l.length = [KllSketchAccumulator.init,
        KllSketchAccumulator.init.append 3].length ∧
      ∀ i, i < [KllSketchAccumulator.init,
          KllSketchAccumulator.init.append 3].length →
        (([KllSketchAccumulator.init,
            KllSketchAccumulator.init.append 3].getD i
              default).flush.sketch.n = 0 →
          l.getD i .null = .null) ∧
        (([KllSketchAccumulator.init,
            KllSketchAccumulator.init.append 3].getD i
              default).flush.sketch.n ≠ 0 →
          l.getD i .null =
            .estimate ([KllSketchAccumulator.init,
              KllSketchAccumulator.init.append 3].getD i
                default).flush.sketch)) :=
  ⟨⟨rfl, (extract_values_null_pattern
      ⟨false, false, none, kMissingNormalizedValue⟩
      [KllSketchAccumulator.init]).1 rfl⟩,
    (extract_values_null_pattern
      ⟨false, false, some ⟨[(1 : ℚ)/2], false⟩, kMissingNormalizedValue⟩
      [KllSketchAccumulator.init, KllSketchAccumulator.init.append 3]).2
      ⟨[(1 : ℚ)/2], false⟩ rfl⟩

/-- The serialization loop emits one row per view. -/
theorem layout_length (views : List KllView) (ic lc : Nat) :
    (layout views ic lc).length = views.length := by
  induction views generalizing ic lc with
  | nil => rfl
  | cons v rest ih =>
    unfold layout
    by_cases h : v.n = 0 <;> simp [h, ih]

/-- With a leading zero-count view, the prefix sums ignore the head. -/
theorem prefix_cons_zero (v : KllView) (rest : List KllView) (i : Nat)
    (hv : v.n = 0) :
    itemsPrefix (v :: rest) (i + 1) = itemsPrefix rest i ∧
    levelsPrefix (v :: rest) (i + 1) = levelsPrefix rest i := by
  unfold itemsPrefix levelsPrefix
  simp [List.take_succ_cons, List.filter_cons, hv]

/-- With a leading positive-count view, the prefix sums gain the head sizes. -/
theorem prefix_cons_pos (v : KllView) (rest : List KllView) (i : Nat)
    (hv : ¬ v.n = 0) :
    itemsPrefix (v :: rest) (i + 1) = v.items.length + itemsPrefix rest i ∧
    levelsPrefix (v :: rest) (i + 1) = v.levels.length + levelsPrefix rest i := by
  unfold itemsPrefix levelsPrefix
  simp [List.take_succ_cons, List.filter_cons, hv]

/-- Row `i` of the serialization loop: null when the view count is zero,
otherwise the view fields with offsets equal to the running start plus the
sums of the earlier non-null sizes. -/
theorem layout_getD (views : List KllView) (ic lc i : Nat)
    (h : i < views.length) :
    (layout views ic lc).getD i .null =
      (if (views.getD i default).n = 0 then RowSlot.null
       else
         RowSlot.slot (views.getD i default).k (views.getD i default).n
           (views.getD i default).minValue (views.getD i default).maxValue
           (ic + itemsPrefix views i) (views.getD i default).items.length
           (lc + levelsPrefix views i)
           (views.getD i default).levels.length) := by
  induction views generalizing ic lc i with
  | nil => simp at h
  | cons v rest ih =>
    cases i with
    | zero =>
      unfold layout
      by_cases hv : v.n = 0
      · simp [hv, itemsPrefix, levelsPrefix]
      · simp [hv, itemsPrefix, levelsPrefix]
    | succ i =>
      have hi : i < rest.length := by simpa using h
      unfold layout
      by_cases hv : v.n = 0
      · rw [if_pos hv, List.getD_cons_succ, List.getD_cons_succ,
          ih ic lc i hi, (prefix_cons_zero v rest i hv).1,
          (prefix_cons_zero v rest i hv).2]
      · rw [if_neg hv, List.getD_cons_succ, List.getD_cons_succ,
          ih (ic + v.items.length) (lc + v.levels.length) i hi,
          (prefix_cons_pos v rest i hv).1, (prefix_cons_pos v rest i hv).2]
        by_cases hz : (rest.getD i default).n = 0
        · rw [if_pos hz, if_pos hz]
        · rw [if_neg hz, if_neg hz]
          simp [Nat.add_assoc]

/-- `layoutItems` and `layoutLevels` on a leading zero-count view. -/
theorem layoutElems_cons_zero (v : KllView) (rest : List KllView)
    (hv : v.n = 0) :
    layoutItems (v :: rest) = layoutItems rest ∧
    layoutLevels (v :: rest) = layoutLevels rest := by
  unfold layoutItems layoutLevels
  simp [List.filter_cons, hv]

/-- `layoutItems` and `layoutLevels` on a leading positive-count view. -/
theorem layoutElems_cons_pos (v : KllView) (rest : List KllView)
    (hv : ¬ v.n = 0) :
    layoutItems (v :: rest) = v.items ++ layoutItems rest ∧
    layoutLevels (v :: rest) = v.levels ++ layoutLevels rest := by
  unfold layoutItems layoutLevels
  simp [List.filter_cons, hv]

/-- The slice of the shared elements vector at the offset and size of a
non-null row is exactly that row's view items (and levels): the rows occupy
consecutive, pairwise-disjoint ranges in group order. -/
theorem layout_slices (views : List KllView) (i : Nat)
    (h : i < views.length) (hn : (views.getD i default).n ≠ 0) :
    ((layoutItems views).drop (itemsPrefix views i)).take
        (views.getD i default).items.length =
      (views.getD i default).items ∧
    ((layoutLevels views).drop (levelsPrefix views i)).take
        (views.getD i default).levels.length =
      (views.getD i default).levels := by
  induction views generalizing i with
  | nil => simp at h
  | cons v rest ih =>
    cases i with
    | zero =>
      rw [List.getD_cons_zero] at hn ⊢
      obtain ⟨h1, h2⟩ := layoutElems_cons_pos v rest hn
      rw [h1, h2]
      unfold itemsPrefix levelsPrefix
      simp [List.take_left]
    | succ i =>
      have hi : i < rest.length := by simpa using h
      rw [List.getD_cons_succ] at hn ⊢
      by_cases hv : v.n = 0
      · obtain ⟨h1, h2⟩ := layoutElems_cons_zero v rest hv
        rw [h1, h2, (prefix_cons_zero v rest i hv).1,
          (prefix_cons_zero v rest i hv).2]
        exact ih i hi hn
      · obtain ⟨h1, h2⟩ := layoutElems_cons_pos v rest hv
        rw [h1, h2, (prefix_cons_pos v rest i hv).1,
          (prefix_cons_pos v rest i hv).2, List.drop_append,
          List.drop_append]
        exact ih i hi hn

/-- Claim C5: in `extractAccumulators`, every group whose compacted sketch has
count 0 is a null row; the percentiles, isArray and accuracy children are
constant vectors of batch length carrying the operator-scope values (the
accuracy constant is null exactly when accuracy is unset); with no resolved
percentiles all three children are null constants and every row is null. -/
theorem extract_accumulators_nulls_and_constants (st : AggState)
    (groups : List KllSketchAccumulator) :
    (∀ i, i < groups.length →
      ((spillViews groups).getD i default).n = 0 →
      (extractAccumulators st groups).rows.getD i .null = .null) ∧
    ((extractAccumulators st groups).percentilesChild.length =
        groups.length ∧
      (extractAccumulators st groups).percentilesIsArrayChild.length =
        groups.length ∧
      (extractAccumulators st groups).accuracyChild.length = groups.length) ∧
    (∀ p, st.percentiles = some p →
      (extractAccumulators st groups).percentilesChild =
        ⟨groups.length, false, p.values⟩ ∧
      (extractAccumulators st groups).percentilesIsArrayChild =
        ⟨groups.length, false, p.isArray⟩ ∧
      (extractAccumulators st groups).accuracyChild.value = st.accuracy ∧
      ((extractAccumulators st groups).accuracyChild.isNull = true ↔
        st.accuracy = kMissingNormalizedValue) ∧
      (∀ i, i < groups.length →
        ((extractAccumulators st groups).rows.getD i .null = .null ↔
          ((spillViews groups).getD i default).n = 0))) ∧
    (st.percentiles = none →
      (extractAccumulators st groups).percentilesChild.isNull = true ∧
      (extractAccumulators st groups).percentilesIsArrayChild.isNull = true ∧
      (extractAccumulators st groups).accuracyChild.isNull = true ∧
      ∀ i, i < groups.length →
        (extractAccumulators st groups).rows.getD i .null = .null) := by
  have hlen : (spillViews groups).length = groups.length := by
    simp [spillViews]
  have hrows : ∀ i, i < groups.length →
      st.percentiles ≠ none →
      ((extractAccumulators st groups).rows.getD i .null = .null ↔
        ((spillViews groups).getD i default).n = 0) := by
    intro i hi hp
    cases hsome : st.percentiles with
    | none => exact absurd hsome hp
    | some p =>
      simp only [extractAccumulators, hsome]
      rw [layout_getD (spillViews groups) 0 0 i (by rw [hlen]; exact hi)]
      by_cases hz : ((spillViews groups).getD i default).n = 0
      · simp [hz]
      · simp [hz]
  refine ⟨?_, ?_, ?_, ?_⟩
  · intro i hi hz
    cases hsome : st.percentiles with
    | none =>
      simp only [extractAccumulators, hsome]
      simp [List.getD_eq_getElem?_getD]
    | some p =>
      exact (hrows i hi (by rw [hsome]; exact fun hc => Option.noConfusion hc)).mpr hz
  · cases hsome : st.percentiles <;> simp [extractAccumulators, hsome]
  · intro p hp
    refine ⟨?_, ?_, ?_, ?_, ?_⟩
    · simp [extractAccumulators, hp]
    · simp [extractAccumulators, hp]
    · simp [extractAccumulators, hp]
    · simp [extractAccumulators, hp]
    · intro i hi
      exact hrows i hi (by rw [hp]; exact fun hc => Option.noConfusion hc)
  · intro hp
    refine ⟨by simp [extractAccumulators, hp], by simp [extractAccumulators, hp],
      by simp [extractAccumulators, hp], ?_⟩
    intro i hi
    simp only [extractAccumulators, hp]
    simp [List.getD_eq_getElem?_getD]

/-- Claim C10: the items and levels slices of the non-null rows of the
`extractAccumulators` output occupy consecutive, pairwise-disjoint ranges of
the shared elements vectors in group order: each non-null row offset equals
the sum of the sizes of the earlier non-null rows, each size equals the view
items (levels) length, null rows contribute no elements, and the slice at
each non-null row recovers exactly that view's items (levels). -/
theorem extract_accumulators_layout_ranges :
    (∀ (st : AggState) (groups : List KllSketchAccumulator) (p : Percentiles),
      st.percentiles = some p →
      (extractAccumulators st groups).rows = layout (spillViews groups) 0 0 ∧
      (extractAccumulators st groups).itemsElements =
        layoutItems (spillViews groups) ∧
      (extractAccumulators st groups).levelsElements =
        layoutLevels (spillViews groups)) ∧
    (∀ (views : List KllView) (i : Nat), i < views.length →
      ((views.getD i default).n = 0 →
        (layout views 0 0).getD i .null = .null) ∧
      ((views.getD i default).n ≠ 0 →
        (layout views 0 0).getD i .null =
          .slot (views.getD i default).k (views.getD i default).n
            (views.getD i default).minValue (views.getD i default).maxValue
            (itemsPrefix views i) (views.getD i default).items.length
            (levelsPrefix views i)
            (views.getD i default).levels.length)) ∧
    (∀ (views : List KllView) (i : Nat), i < views.length →
      (views.getD i default).n ≠ 0 →
      ((layoutItems views).drop (itemsPrefix views i)).take
          (views.getD i default).items.length =
        (views.getD i default).items ∧
      ((layoutLevels views).drop (levelsPrefix views i)).take
          (views.getD i default).levels.length =
        (views.getD i default).levels) := by
  refine ⟨?_, ?_, ?_⟩
  · intro st groups p hp
    refine ⟨?_, ?_, ?_⟩ <;> simp [extractAccumulators, hp]
  · intro views i hi
    constructor
    · intro hz
      rw [layout_getD views 0 0 i hi, if_pos hz]
    · intro hz
      rw [layout_getD views 0 0 i hi, if_neg hz]
      simp
  · intro views i hi hz
    exact layout_slices views i hi hz

/-- An operator state with one resolved scalar percentile and unset
accuracy. -/
def stSomeHalf : AggState :=
  ⟨false, false, some ⟨[(1 : ℚ)/2], false⟩, kMissingNormalizedValue⟩

/-- One empty group and one group holding a single value. -/
def twoGroups : List KllSketchAccumulator :=
  [KllSketchAccumulator.init, KllSketchAccumulator.init.append 3]

/-- A null (count zero) view. -/
def vwA : KllView := ⟨200, 0, 0, 0, [], [0, 0], true⟩

/-- A view holding two items. -/
def vwB : KllView := ⟨200, 2, 1, 5, [1, 5], [0, 2], true⟩

/-- A view holding one item, with a different levels length. -/
def vwC : KllView := ⟨150, 1, 9, 9, [9], [0, 1, 1], true⟩

/-- A batch of three views with a null row in front. -/
def threeViews : List KllView := [vwA, vwB, vwC]

/-- Witness for C5: on a concrete batch, the empty group is a null row, the
non-empty group is non-null, and the percentiles child is the operator-scope
constant of batch length. -/
theorem extract_accumulators_nulls_and_constants_witness :
    (0 < twoGroups.length ∧
      ((spillViews twoGroups).getD 0 default).n = 0 ∧
      (extractAccumulators stSomeHalf twoGroups).rows.getD 0 .null = .null) ∧
    (stSomeHalf.percentiles = some ⟨[(1 : ℚ)/2], false⟩ ∧
      (extractAccumulators stSomeHalf twoGroups).percentilesChild =
        ⟨twoGroups.length, false, [(1 : ℚ)/2]⟩ ∧
      1 < twoGroups.length ∧
      ((extractAccumulators stSomeHalf twoGroups).rows.getD 1 .null = .null ↔
        ((spillViews twoGroups).getD 1 default).n = 0)) :=
  ⟨⟨by decide, by decide,
      (extract_accumulators_nulls_and_constants stSomeHalf twoGroups).1 0
        (by decide) (by decide)⟩,
    rfl,
    ((extract_accumulators_nulls_and_constants stSomeHalf twoGroups).2.2.1
        ⟨[(1 : ℚ)/2], false⟩ rfl).1,
    by decide,
    ((extract_accumulators_nulls_and_constants stSomeHalf twoGroups).2.2.1
        ⟨[(1 : ℚ)/2], false⟩ rfl).2.2.2.2 1 (by decide)⟩

/-- Witness for C10: on a concrete batch of views with a null row in front,
row 2 records offsets equal to the sizes of the earlier non-null row, and its
slice of the shared elements recovers its items. -/
theorem extract_accumulators_layout_ranges_witness :
    (stSomeHalf.percentiles = some ⟨[(1 : ℚ)/2], false⟩ ∧
      (extractAccumulators stSomeHalf twoGroups).rows =
        layout (spillViews twoGroups) 0 0) ∧
    (0 < threeViews.length ∧ (threeViews.getD 0 default).n = 0 ∧
      (layout threeViews 0 0).getD 0 .null = .null) ∧
    (2 < threeViews.length ∧ (threeViews.getD 2 default).n ≠ 0 ∧
      (layout threeViews 0 0).getD 2 .null =
        .slot (threeViews.getD 2 default).k (threeViews.getD 2 default).n
          (threeViews.getD 2 default).minValue
          (threeViews.getD 2 default).maxValue
          (itemsPrefix threeViews 2) (threeViews.getD 2 default).items.length
          (levelsPrefix threeViews 2)
          (threeViews.getD 2 default).levels.length ∧
      ((layoutItems threeViews).drop (itemsPrefix threeViews 2)).take
          (threeViews.getD 2 default).items.length =
        (threeViews.getD 2 default).items) :=
  ⟨⟨rfl,
      (extract_accumulators_layout_ranges.1 stSomeHalf twoGroups
          ⟨[(1 : ℚ)/2], false⟩ rfl).1⟩,
    ⟨by decide, by decide,
      (extract_accumulators_layout_ranges.2.1 threeViews 0 (by decide)).1
        (by decide)⟩,
    by decide, by decide,
    (extract_accumulators_layout_ranges.2.1 threeViews 2 (by decide)).2
      (by decide),
    (extract_accumulators_layout_ranges.2.2 threeViews 2 (by decide)
        (by decide)).1⟩

/-- A fresh operator state: nothing resolved yet. -/
def stFresh : AggState := ⟨false, false, none, kMissingNormalizedValue⟩

/-- A scalar percentile column whose slot 0 is null while slot 1 holds the
valid percentile 1. -/
def c3Base : List (Slot ℚ) := [⟨true, 0⟩, ⟨false, 1⟩]

/-- Claim C3 (code evaluated at the failing input): with selected rows = {1}
over a non-constant scalar percentile column whose unselected slot 0 is null
while the selected slot 1 holds the valid percentile 1, resolution raises
"Percentile cannot be null" although no selected percentile violates the
contract: the validation loop checks nullness at index `i` (source line 602)
but reads the value at index `offset + i` (source line 603). -/
theorem percentile_null_check_wrong_index :
    checkSetPercentileRows stFresh [1] (.doubles c3Base [0, 1] false) =
      .error "Percentile cannot be null" ∧
    isNullAt (decodeSlots c3Base [0, 1]) 1 = false ∧
    (0 : ℚ) ≤ valueAt (decodeSlots c3Base [0, 1]) 1 ∧
    valueAt (decodeSlots c3Base [0, 1]) 1 ≤ 1 := by
  refine ⟨by rfl, by rfl, by norm_num [valueAt, decodeSlots, c3Base],
    by norm_num [valueAt, decodeSlots, c3Base]⟩

/-- A value of the accuracy sentinel is never a valid accuracy. -/
theorem accuracy_pos_ne_missing (a : ℚ) (h1 : 0 < a) :
    ¬ a = kMissingNormalizedValue := by
  intro hEq
  rw [hEq] at h1
  norm_num [kMissingNormalizedValue] at h1

/-- The accuracy row loop on a state whose accuracy is already resolved and
in range: it errors exactly when some selected slot is null or differs from
the resolved accuracy, and on success the state is unchanged. -/
theorem accuracyLoop_set_spec (dec : List (Slot ℚ)) (rows : List Nat)
    (st : AggState) (h1 : 0 < st.accuracy) (h2 : st.accuracy ≤ 1) :
    (isUserError (checkSetAccuracyLoop st dec rows) = true ↔
      ∃ r ∈ rows, isNullAt dec r = true ∨ valueAt dec r ≠ st.accuracy) ∧
    (∀ st2, checkSetAccuracyLoop st dec rows = .ok st2 → st2 = st) := by
  have hne : ¬ st.accuracy = kMissingNormalizedValue :=
    accuracy_pos_ne_missing st.accuracy h1
  induction rows with
  | nil =>
    constructor
    · simp [checkSetAccuracyLoop, isUserError]
    · intro st2 hok
      simp only [checkSetAccuracyLoop] at hok
      exact (Except.ok.inj hok).symm
  | cons row rest ih =>
    by_cases hnull : isNullAt dec row
    · constructor
      · simp only [checkSetAccuracyLoop, if_pos hnull, isUserError, true_iff]
        exact ⟨row, List.mem_cons_self _ _, Or.inl hnull⟩
      · intro st2 hok
        simp only [checkSetAccuracyLoop, if_pos hnull] at hok
        exact absurd hok (by simp)
    · by_cases heq : valueAt dec row = st.accuracy
      · have hstep : checkSetAccuracyLoop st dec (row :: rest) =
            checkSetAccuracyLoop st dec rest := by
          simp [checkSetAccuracyLoop, hnull, hne, heq]
        obtain ⟨ihiff, ihok⟩ := ih
        constructor
        · rw [hstep, ihiff]
          constructor
          · rintro ⟨r, hr, hp⟩
            exact ⟨r, List.mem_cons_of_mem _ hr, hp⟩
          · rintro ⟨r, hr, hp⟩
            rcases List.mem_cons.mp hr with rfl | hr
            · rcases hp with hp | hp
              · exact absurd hp (by simpa using hnull)
              · exact absurd heq hp
            · exact ⟨r, hr, hp⟩
        · intro st2 hok
          rw [hstep] at hok
          exact ihok st2 hok
      · have hstep : checkSetAccuracyLoop st dec (row :: rest) =
            .error "Accuracy argument must be constant for all input rows" := by
          simp [checkSetAccuracyLoop, hnull, hne, heq]
        constructor
        · rw [hstep]
          simp only [isUserError, true_iff]
          exact ⟨row, List.mem_cons_self _ _, Or.inr heq⟩
        · intro st2 hok
          rw [hstep] at hok
          exact absurd hok (by simp)

/-- Claim C7: accuracy resolution (over states whose accuracy is either unset
or previously accepted, i.e. in range) raises a user error exactly when some
selected accuracy value is null, lies outside `(0, 1]`, or differs from the
resolved accuracy (the previously accepted one, or the first selected value
when unset); on success the resolved accuracy is bound and a previously
accepted accuracy is never changed. -/
theorem accuracy_resolution_spec (st : AggState) (rows : List Nat)
    (base : List (Slot ℚ)) (indices : List Nat) (cm : Bool)
    (hA : st.hasAccuracy = true)
    (hst : st.accuracy = kMissingNormalizedValue ∨
      (0 < st.accuracy ∧ st.accuracy ≤ 1))
    (hrows : rows ≠ [])
    (hcm : cm = true → ∀ r ∈ rows,
      (decodeSlots base indices).getD r default =
        (decodeSlots base indices).getD 0 default) :
    (isUserError (checkSetAccuracyRows st rows base indices cm) = true ↔
      ∃ r ∈ rows, isNullAt (decodeSlots base indices) r = true ∨
        ¬ (0 < valueAt (decodeSlots base indices) r ∧
            valueAt (decodeSlots base indices) r ≤ 1) ∨
        valueAt (decodeSlots base indices) r ≠
          (if st.accuracy = kMissingNormalizedValue then
            valueAt (decodeSlots base indices) (rows.headD 0)
          else st.accuracy)) ∧
    (∀ st2, checkSetAccuracyRows st rows base indices cm = .ok st2 →
      st2.accuracy =
        (if st.accuracy = kMissingNormalizedValue then
          valueAt (decodeSlots base indices) (rows.headD 0)
        else st.accuracy) ∧
      (st.accuracy ≠ kMissingNormalizedValue →
        st2.accuracy = st.accuracy)) := by
  obtain ⟨r0, rest, rfl⟩ := List.exists_cons_of_ne_nil hrows
  set dec := decodeSlots base indices with hdecdef
  have hred : checkSetAccuracyRows st (r0 :: rest) base indices cm =
      (if cm then
        (if isNullAt dec 0 then Except.error "Accuracy cannot be null"
         else checkSetAccuracyValue st (valueAt dec 0))
       else checkSetAccuracyLoop st dec (r0 :: rest)) := by
    simp [checkSetAccuracyRows, hA]
  have hhead : (r0 :: rest).headD 0 = r0 := rfl
  cases cm with
  | true =>
    have hAll := hcm rfl
    have hisnull : ∀ r ∈ r0 :: rest, isNullAt dec r = isNullAt dec 0 :=
      fun r hr => congrArg Slot.isNull (hAll r hr)
    have hval : ∀ r ∈ r0 :: rest, valueAt dec r = valueAt dec 0 :=
      fun r hr => congrArg Slot.val (hAll r hr)
    have hv0 : valueAt dec r0 = valueAt dec 0 :=
      hval r0 (List.mem_cons_self _ _)
    rw [hred, if_pos rfl]
    by_cases hnull : isNullAt dec 0 = true
    · rw [if_pos hnull]
      refine ⟨?_, ?_⟩
      · simp only [isUserError, true_iff]
        exact ⟨r0, List.mem_cons_self _ _,
          Or.inl ((hisnull r0 (List.mem_cons_self _ _)).trans hnull)⟩
      · intro st2 hok
        exact absurd hok (by simp)
    · rw [if_neg hnull]
      rcases hst with hmiss | ⟨h1, h2⟩
      · rw [hhead] at *
        unfold checkSetAccuracyValue
        by_cases hr0 : 0 < valueAt dec 0 ∧ valueAt dec 0 ≤ 1
        · rw [if_neg (not_not_intro hr0), if_pos hmiss]
          refine ⟨?_, ?_⟩
          · simp only [isUserError, Bool.false_eq_true, false_iff]
            rintro ⟨r, hr, hp⟩
            rcases hp with hp | hp | hp
            · exact absurd ((hisnull r hr).symm.trans hp) hnull
            · exact hp (by rw [hval r hr]; exact hr0)
            · rw [if_pos hmiss, hval r hr, hv0] at hp
              exact hp rfl
          · intro st2 hok
            have hst2 : st2 = { st with accuracy := valueAt dec 0 } :=
              (Except.ok.inj hok).symm
            rw [if_pos hmiss, hst2, hv0]
            exact ⟨rfl, fun hcontra => absurd hmiss hcontra⟩
        · rw [if_pos hr0]
          refine ⟨?_, ?_⟩
          · simp only [isUserError, true_iff]
            refine ⟨r0, List.mem_cons_self _ _, Or.inr (Or.inl ?_)⟩
            rw [hv0]
            exact hr0
          · intro st2 hok
            exact absurd hok (by simp)
      · have hne : ¬ st.accuracy = kMissingNormalizedValue :=
          accuracy_pos_ne_missing st.accuracy h1
        rw [hhead] at *
        unfold checkSetAccuracyValue
        by_cases hr0 : 0 < valueAt dec 0 ∧ valueAt dec 0 ≤ 1
        · rw [if_neg (not_not_intro hr0), if_neg hne]
          by_cases heq : valueAt dec 0 = st.accuracy
          · rw [if_pos heq]
            refine ⟨?_, ?_⟩
            · simp only [isUserError, Bool.false_eq_true, false_iff]
              rintro ⟨r, hr, hp⟩
              rcases hp with hp | hp | hp
              · exact absurd ((hisnull r hr).symm.trans hp) hnull
              · exact hp (by rw [hval r hr]; exact hr0)
              · rw [if_neg hne, hval r hr] at hp
                exact hp heq
            · intro st2 hok
              have hst2 : st2 = st := (Except.ok.inj hok).symm
              rw [if_neg hne, hst2]
              exact ⟨rfl, fun _ => rfl⟩
          · rw [if_neg heq]
            refine ⟨?_, ?_⟩
            · simp only [isUserError, true_iff]
              refine ⟨r0, List.mem_cons_self _ _, Or.inr (Or.inr ?_)⟩
              rw [if_neg hne, hv0]
              exact heq
            · intro st2 hok
              exact absurd hok (by simp)
        · rw [if_pos hr0]
          refine ⟨?_, ?_⟩
          · simp only [isUserError, true_iff]
            refine ⟨r0, List.mem_cons_self _ _, Or.inr (Or.inl ?_)⟩
            rw [hv0]
            exact hr0
          · intro st2 hok
            exact absurd hok (by simp)
  | false =>
    rw [hred, if_neg (by simp)]
    rcases hst with hmiss | ⟨h1, h2⟩
    · rw [hhead] at *
      by_cases hnull0 : isNullAt dec r0 = true
      · have hloop : checkSetAccuracyLoop st dec (r0 :: rest) =
            .error "Accuracy cannot be null" := by
          simp [checkSetAccuracyLoop, hnull0]
        rw [hloop]
        refine ⟨?_, ?_⟩
        · simp only [isUserError, true_iff]
          exact ⟨r0, List.mem_cons_self _ _, Or.inl hnull0⟩
        · intro st2 hok
          exact absurd hok (by simp)
      · by_cases hr0 : 0 < valueAt dec r0 ∧ valueAt dec r0 ≤ 1
        · have hloop : checkSetAccuracyLoop st dec (r0 :: rest) =
              checkSetAccuracyLoop { st with accuracy := valueAt dec r0 }
                dec rest := by
            simp [checkSetAccuracyLoop, hnull0, hmiss,
              checkSetAccuracyValue, hr0]
          rw [hloop]
          obtain ⟨hiff, hok⟩ := accuracyLoop_set_spec dec rest
            { st with accuracy := valueAt dec r0 } hr0.1 hr0.2
          refine ⟨?_, ?_⟩
          · rw [hiff, if_pos hmiss]
            constructor
            · rintro ⟨r, hr, hp⟩
              refine ⟨r, List.mem_cons_of_mem _ hr, ?_⟩
              rcases hp with hp | hp
              · exact Or.inl hp
              · exact Or.inr (Or.inr hp)
            · rintro ⟨r, hr, hp⟩
              rcases List.mem_cons.mp hr with rfl | hr
              · rcases hp with hp | hp | hp
                · exact absurd hp hnull0
                · exact absurd hr0 hp
                · exact absurd rfl hp
              · refine ⟨r, hr, ?_⟩
                rcases hp with hp | hp | hp
                · exact Or.inl hp
                · right
                  intro hEq
                  rw [hEq] at hp
                  exact hp hr0
                · exact Or.inr hp
          · intro st2 hok2
            have hst2 := hok st2 hok2
            rw [if_pos hmiss, hst2]
            exact ⟨rfl, fun hcontra => absurd hmiss hcontra⟩
        · have hloop : checkSetAccuracyLoop st dec (r0 :: rest) =
              .error "Accuracy must be between 0 and 1" := by
            simp [checkSetAccuracyLoop, hnull0, hmiss,
              checkSetAccuracyValue, hr0]
          rw [hloop]
          refine ⟨?_, ?_⟩
          · simp only [isUserError, true_iff]
            exact ⟨r0, List.mem_cons_self _ _, Or.inr (Or.inl hr0)⟩
          · intro st2 hok
            exact absurd hok (by simp)
    · have hne : ¬ st.accuracy = kMissingNormalizedValue :=
        accuracy_pos_ne_missing st.accuracy h1
      obtain ⟨hiff, hok⟩ := accuracyLoop_set_spec dec (r0 :: rest) st h1 h2
      refine ⟨?_, ?_⟩
      · rw [hiff, if_neg hne]
        constructor
        · rintro ⟨r, hr, hp⟩
          refine ⟨r, hr, ?_⟩
          rcases hp with hp | hp
          · exact Or.inl hp
          · exact Or.inr (Or.inr hp)
        · rintro ⟨r, hr, hp⟩
          refine ⟨r, hr, ?_⟩
          rcases hp with hp | hp | hp
          · exact Or.inl hp
          · right
            intro hEq
            rw [hEq] at hp
            exact hp ⟨h1, h2⟩
          · exact Or.inr hp
      · intro st2 hok2
        have hst2 := hok st2 hok2
        rw [if_neg hne, hst2]
        exact ⟨rfl, fun _ => rfl⟩

/-- A fresh operator state that declares the accuracy argument. -/
def w7St : AggState := ⟨false, true, none, kMissingNormalizedValue⟩

/-- An accuracy column holding the single non-null value 1. -/
def w7Base : List (Slot ℚ) := [⟨false, 1⟩]

/-- Witness for C7: a single selected row with the valid accuracy 1 raises no
error. -/
theorem accuracy_resolution_spec_witness :
    w7St.hasAccuracy = true ∧
    (w7St.accuracy = kMissingNormalizedValue ∨
      (0 < w7St.accuracy ∧ w7St.accuracy ≤ 1)) ∧
    ([0] : List Nat) ≠ [] ∧
    isUserError (checkSetAccuracyRows w7St [0] w7Base [0] false) = false := by
  refine ⟨rfl, Or.inl rfl, by simp, ?_⟩
  have h := (accuracy_resolution_spec w7St [0] w7Base [0] false rfl
    (Or.inl rfl) (by simp) (by intro hcontra; simp at hcontra)).1
  rw [Bool.eq_false_iff]
  intro hTrue
  obtain ⟨r, hr, hp⟩ := h.mp hTrue
  rcases List.mem_singleton.mp hr with rfl
  rcases hp with hp | hp | hp
  · simp [isNullAt, decodeSlots, w7Base] at hp
  · exact hp (by norm_num [valueAt, decodeSlots, w7Base])
  · rw [if_pos (show w7St.accuracy = kMissingNormalizedValue from rfl)] at hp
    exact hp rfl

end ApproxPercentile
